import Mathlib

/-!
Verification development for the AKAI_Synth OPL2-style software synthesizer
(file src/softsynthopl2.py and its wave-output support in src/waveoutput.py).

The Python source is shallowly embedded here:

* audio samples (numpy float64) are modelled as rationals (all the sample
  arithmetic relevant to the claims is field arithmetic and comparisons);
* numpy arrays are Lean lists; `np.linspace` becomes `linspace` below;
* python dicts become association lists that keep insertion order, as
  CPython dicts do;
* mutation becomes explicit state passing: a method on an object becomes a
  function from the object state (plus arguments) to the new state and the
  returned value;
* raised ValueErrors become an `Option String` component of the result;
* the pointwise waveform functions (np.sin, scipy sawtooth and square) and
  the float constant 2*np.pi are abstracted into a `WaveOps` record, since
  sine is transcendental; every float is a rational, so the record fields
  are functions and a constant on the rationals.
-/

namespace AkaiSynth

/-! ## Voice allocator: SineAudioprocessor, src/softsynthopl2.py lines 1074-1240

State relevant to note dispatch: the list `fm_channel_order`, the dict
`note2channel`, and (observationally) the list of channel indices on which
`FMChannel.tunedown` was invoked by `dispatch_strike`. -/

/-- Allocator state of `SineAudioprocessor`: `fm_channel_order` (list of
channel indices in order of use), `note2channel` (a python dict, modelled as
an insertion-ordered association list from note to channel index), and
`tuned`, a log of the channel indices passed to `FMChannel.tunedown` by
`dispatch_strike` (observational, used to state claim C1). -/
structure AllocState where
  order : List ℕ
  n2c : List (ℕ × ℕ)
  tuned : List ℕ
deriving DecidableEq

/-- Number of FM channels, `self.fm_channels = 8` (line 1089). -/
def fmChannels : ℕ := 8

/-- The initial allocator state (lines 1100-1101): both collections empty. -/
def allocInit : AllocState := ⟨[], [], []⟩

/-- Embeds `_remove_channel_from_order` (lines 1128-1134):
`self.fm_channel_order = [c for c in self.fm_channel_order if c != idx]`. -/
def removeChannelFromOrder (idx : ℕ) (s : AllocState) : AllocState :=
  { s with order := s.order.filter (fun c => c ≠ idx) }

/-- Embeds `_put_channel_to_order` (lines 1137-1144): remove `idx` from the
order list, then append it. -/
def putChannelToOrder (idx : ℕ) (s : AllocState) : AllocState :=
  let s1 := removeChannelFromOrder idx s
  { s1 with order := s1.order ++ [idx] }

/-- Embeds `_free_channel` (lines 1147-1163): remove `idx` from the order
list; then scan `note2channel` in insertion order for the first entry whose
value is `idx` and, if found, delete that entry (the loop breaks at the
first match and `del self.note2channel[n]` removes the entry of the key `n`
at which the loop stopped; dict keys are unique, so exactly the first entry
with value `idx` is removed). -/
def freeChannel (idx : ℕ) (s : AllocState) : AllocState :=
  let s1 := removeChannelFromOrder idx s
  { s1 with n2c := s1.n2c.eraseP (fun e => e.2 == idx) }

/-- Embeds `_find_channel` (lines 1166-1181): the lowest-numbered channel in
`range(0, 8)` not present in `fm_channel_order`, else the head of
`fm_channel_order` (least recently struck). -/
def findChannel (s : AllocState) : ℕ :=
  let unused := (List.range fmChannels).filter (fun c => c ∉ s.order)
  if unused ≠ [] then unused.headD 0 else s.order.headD 0

/-- Python dict write `self.note2channel[note] = idx`: if the key is
present its value is updated in place (position preserved), otherwise the
pair is appended at the end, as CPython dicts do. -/
def dictSet (note idx : ℕ) (l : List (ℕ × ℕ)) : List (ℕ × ℕ) :=
  if note ∈ l.map Prod.fst then
    l.map (fun e => if e.1 = note then (note, idx) else e)
  else l ++ [(note, idx)]

/-- Python dict read `self.note2channel[note]` (key assumed present). -/
def dictGet (note : ℕ) (l : List (ℕ × ℕ)) : ℕ :=
  ((l.find? (fun e => e.1 == note)).map Prod.snd).getD 0

/-- Embeds `dispatch_strike` (lines 1184-1211). If the note is already in
`note2channel` the code tunes down its current channel (logged in `tuned`)
but does not free it; the code then unconditionally picks a channel with
`_find_channel`, frees that channel, puts it at the end of the order list
and maps the note to it. Frequency setting and the strike call touch only
the FMChannel, not the allocator bookkeeping. -/
def dispatchStrike (note : ℕ) (s : AllocState) : AllocState :=
  let s :=
    if note ∈ s.n2c.map Prod.fst then
      { s with tuned := s.tuned ++ [dictGet note s.n2c] }
    else s
  let idx := findChannel s
  let s := freeChannel idx s
  let s := putChannelToOrder idx s
  { s with n2c := dictSet note idx s.n2c }

/-- Embeds `dispatch_release` (lines 1214-1222): calls `release` on the
mapped channel; the allocator bookkeeping is unchanged. -/
def dispatchRelease (_note : ℕ) (s : AllocState) : AllocState := s

/-- Embeds `channel_done_callback` (lines 1225-1231): frees the channel. -/
def channelDoneCallback (idx : ℕ) (s : AllocState) : AllocState :=
  freeChannel idx s

/-- Allocator events for claim C2. -/
inductive AllocEvent where
  | strike (note : ℕ)
  | releaseEv (note : ℕ)
  | chDone (idx : ℕ)
deriving DecidableEq

/-- One allocator step. -/
def allocStep (s : AllocState) (e : AllocEvent) : AllocState :=
  match e with
  | .strike n => dispatchStrike n s
  | .releaseEv n => dispatchRelease n s
  | .chDone i => channelDoneCallback i s

/-- Run a finite sequence of allocator operations from the initial state. -/
def allocRun (evs : List AllocEvent) : AllocState :=
  evs.foldl allocStep allocInit

/-! ## Claim C2: allocator invariants -/

/-- The invariant of claim C2, strengthened with the fourth conjunct (values
of `note2channel` are pairwise distinct), which is needed for the
induction: `_free_channel` removes only the first entry mapped to a
channel, so distinctness of values is what keeps the third conjunct
inductive. -/
def AllocInvS (s : AllocState) : Prop :=
  s.order.Nodup ∧ (s.n2c.map Prod.fst).Nodup ∧ (s.n2c.map Prod.snd).Nodup ∧
    ∀ e ∈ s.n2c, e.2 ∈ s.order

theorem eraseP_snd_ne {c : ℕ} :
    ∀ l : List (ℕ × ℕ), (l.map Prod.snd).Nodup →
      ∀ e ∈ l.eraseP (fun x => x.2 == c), e.2 ≠ c := by
  intro l
  induction l with
  | nil => simp
  | cons x t ih =>
    intro hv e he
    have hx2 : x.2 ∉ t.map Prod.snd := (List.nodup_cons.mp (by simpa using hv)).1
    have hvt : (t.map Prod.snd).Nodup := (List.nodup_cons.mp (by simpa using hv)).2
    rw [List.eraseP_cons] at he
    by_cases hx : x.2 = c
    · simp only [hx, beq_self_eq_true, cond_true] at he
      intro hec
      exact hx2 (by rw [hx, ← hec] at hx2 ⊢; exact List.mem_map_of_mem Prod.snd he)
    · have : (x.2 == c) = false := by simp [hx]
      simp only [this, cond_false, List.mem_cons] at he
      rcases he with rfl | he
      · exact hx
      · exact ih hvt e he

theorem filter_append_nodup {l : List ℕ} {idx : ℕ} (h : l.Nodup) :
    (l.filter (fun c => c ≠ idx) ++ [idx]).Nodup := by
  refine List.Nodup.append (h.filter _) (List.nodup_singleton idx) ?_
  intro a ha hb
  have := List.of_mem_filter ha
  simp at hb this
  exact this hb

theorem dictSet_mem {note idx : ℕ} {l : List (ℕ × ℕ)} :
    ∀ e ∈ dictSet note idx l, e.2 = idx ∨ e ∈ l := by
  intro e he
  unfold dictSet at he
  split at he
  · obtain ⟨e₀, h₀, he₀⟩ := List.mem_map.mp he
    by_cases h : e₀.1 = note
    · simp only [h, if_pos] at he₀
      left; rw [← he₀]
    · simp only [h, if_neg, not_false_iff] at he₀
      right; rw [← he₀]; exact h₀
  · rcases List.mem_append.mp he with h | h
    · right; exact h
    · left; simp at h; rw [h]

theorem dictSet_keys_nodup {note idx : ℕ} {l : List (ℕ × ℕ)}
    (hk : (l.map Prod.fst).Nodup) : ((dictSet note idx l).map Prod.fst).Nodup := by
  unfold dictSet
  split
  · have heq : (l.map (fun e => if e.1 = note then (note, idx) else e)).map Prod.fst
        = l.map Prod.fst := by
      rw [List.map_map]
      apply List.map_congr_left
      intro e _
      by_cases h : e.1 = note <;> simp [h]
    rw [heq]; exact hk
  · rename_i hnot
    rw [List.map_append]
    refine List.Nodup.append hk (by simp) ?_
    intro a ha hb
    simp at hb
    rw [hb] at ha
    exact hnot ha

theorem dictSet_values_nodup {note idx : ℕ} :
    ∀ l : List (ℕ × ℕ), (l.map Prod.fst).Nodup → (l.map Prod.snd).Nodup →
      (∀ e ∈ l, e.2 ≠ idx) → ((dictSet note idx l).map Prod.snd).Nodup := by
  have core : ∀ l : List (ℕ × ℕ), (l.map Prod.fst).Nodup → (l.map Prod.snd).Nodup →
      (∀ e ∈ l, e.2 ≠ idx) →
      ((l.map (fun e => if e.1 = note then (note, idx) else e)).map Prod.snd).Nodup := by
    intro l
    induction l with
    | nil => simp
    | cons x t ih =>
      intro hk hv hne
      have hk1 : x.1 ∉ t.map Prod.fst := (List.nodup_cons.mp (by simpa using hk)).1
      have hk2 : (t.map Prod.fst).Nodup := (List.nodup_cons.mp (by simpa using hk)).2
      have hv1 : x.2 ∉ t.map Prod.snd := (List.nodup_cons.mp (by simpa using hv)).1
      have hv2 : (t.map Prod.snd).Nodup := (List.nodup_cons.mp (by simpa using hv)).2
      simp only [List.map_cons, List.nodup_cons]
      constructor
      · intro hmem
        obtain ⟨e, he, heq⟩ := List.mem_map.mp hmem
        obtain ⟨e₀, h₀, he₀⟩ := List.mem_map.mp he
        by_cases hx : x.1 = note
        · -- head is (note, idx); tail entries keep their values since their keys differ
          have hne₀ : e₀.1 ≠ note := fun hc => hk1 (hx ▸ hc ▸ List.mem_map_of_mem Prod.fst h₀)
          simp only [hne₀, if_neg, not_false_iff] at he₀
          simp only [hx, if_pos] at heq
          rw [← he₀] at heq
          exact hne e₀ (List.mem_cons_of_mem x h₀) (by rw [heq])
        · simp only [hx, if_neg, not_false_iff] at heq
          by_cases hy : e₀.1 = note
          · simp only [hy, if_pos] at he₀
            rw [← he₀] at heq
            exact hne x (List.mem_cons_self x t) heq.symm
          · simp only [hy, if_neg, not_false_iff] at he₀
            rw [← he₀] at heq
            exact hv1 (heq ▸ List.mem_map_of_mem Prod.snd h₀)
      · exact ih hk2 hv2 (fun e he => hne e (List.mem_cons_of_mem x he))
  intro l hk hv hne
  unfold dictSet
  split
  · exact core l hk hv hne
  · rw [List.map_append]
    refine List.Nodup.append hv (by simp) ?_
    intro a ha hb
    simp at hb
    obtain ⟨e, he, hae⟩ := List.mem_map.mp ha
    exact hne e he (by rw [hae, hb])

theorem freeChannel_invS {idx : ℕ} {s : AllocState} (h : AllocInvS s) :
    AllocInvS (freeChannel idx s) ∧ ∀ e ∈ (freeChannel idx s).n2c, e.2 ≠ idx := by
  obtain ⟨h1, h2, h3, h4⟩ := h
  have hsub : List.Sublist (s.n2c.eraseP (fun e => e.2 == idx)) s.n2c :=
    List.eraseP_sublist _
  have hord : (freeChannel idx s).order = s.order.filter (fun c => c ≠ idx) := rfl
  have hn2c : (freeChannel idx s).n2c = s.n2c.eraseP (fun e => e.2 == idx) := rfl
  refine ⟨⟨?_, ?_, ?_, ?_⟩, ?_⟩
  · rw [hord]; exact h1.filter _
  · rw [hn2c]; exact ((hsub.map Prod.fst).nodup h2)
  · rw [hn2c]; exact ((hsub.map Prod.snd).nodup h3)
  · intro e he
    rw [hn2c] at he
    have hmem := hsub.mem he
    have hne := eraseP_snd_ne s.n2c h3 e he
    rw [hord]
    exact List.mem_filter.mpr ⟨h4 e hmem, by simpa using hne⟩
  · intro e he
    rw [hn2c] at he
    exact eraseP_snd_ne s.n2c h3 e he

theorem allocStep_invS {s : AllocState} (e : AllocEvent) (h : AllocInvS s) :
    AllocInvS (allocStep s e) := by
  obtain ⟨h1, h2, h3, h4⟩ := h
  match e with
  | .releaseEv n => exact ⟨h1, h2, h3, h4⟩
  | .chDone i => exact (freeChannel_invS ⟨h1, h2, h3, h4⟩).1
  | .strike n =>
    show AllocInvS (dispatchStrike n s)
    unfold dispatchStrike
    set s1 := (if n ∈ s.n2c.map Prod.fst then
        { s with tuned := s.tuned ++ [dictGet n s.n2c] } else s) with hs1
    have hs1o : s1.order = s.order := by rw [hs1]; split <;> rfl
    have hs1n : s1.n2c = s.n2c := by rw [hs1]; split <;> rfl
    have hinv1 : AllocInvS s1 := by
      rw [AllocInvS, hs1o, hs1n]; exact ⟨h1, h2, h3, h4⟩
    set idx := findChannel s1 with hidx
    obtain ⟨⟨g1, g2, g3, g4⟩, g5⟩ := @freeChannel_invS idx s1 hinv1
    set s2 := freeChannel idx s1 with hs2
    set s3 := putChannelToOrder idx s2 with hs3
    have hs3o : s3.order = s2.order.filter (fun c => c ≠ idx) ++ [idx] := rfl
    have hs3n : s3.n2c = s2.n2c := rfl
    refine ⟨?_, ?_, ?_, ?_⟩
    · rw [hs3o]; exact filter_append_nodup g1
    · show ((dictSet n idx s3.n2c).map Prod.fst).Nodup
      rw [hs3n]; exact dictSet_keys_nodup g2
    · show ((dictSet n idx s3.n2c).map Prod.snd).Nodup
      rw [hs3n]; exact dictSet_values_nodup s2.n2c g2 g3 g5
    · intro e he
      have := dictSet_mem e he
      rw [hs3n] at this
      show e.2 ∈ s3.order
      rw [hs3o]
      rcases this with hidx2 | hmem
      · exact List.mem_append.mpr (Or.inr (by simp [hidx2]))
      · refine List.mem_append.mpr (Or.inl ?_)
        exact List.mem_filter.mpr ⟨g4 e hmem, by simpa using g5 e hmem⟩

/-- Claim C2: for every finite sequence of allocator operations
(`dispatch_strike`, `dispatch_release`, `channel_done_callback`) from the
initial empty state, each channel id occurs at most once in
`fm_channel_order`, each note occurs at most once as a key of
`note2channel`, and every channel id that is a value of `note2channel` is
an element of `fm_channel_order`. -/
theorem C2_allocator_invariants (evs : List AllocEvent) :
    (allocRun evs).order.Nodup ∧
    ((allocRun evs).n2c.map Prod.fst).Nodup ∧
    (∀ e ∈ (allocRun evs).n2c, e.2 ∈ (allocRun evs).order) := by
  have main : AllocInvS (allocRun evs) := by
    rw [allocRun]
    have : AllocInvS allocInit := by
      refine ⟨List.nodup_nil, by simp [allocInit], by simp [allocInit], by simp [allocInit]⟩
    revert this
    generalize allocInit = s
    induction evs generalizing s with
    | nil => intro h; exact h
    | cons e t ih =>
      intro h
      exact ih (allocStep s e) (allocStep_invS e h)
  exact ⟨main.1, main.2.1, main.2.2.2⟩

/-! ## Claim C1: strike on an already-mapped note -/

/-- Claim C1 evaluated on the code: from the empty state, `strike 60`
followed by `strike 60`. The code tunes channel 0 down (the `tuned` log is
`[0]`) but then selects the fresh channel 1 unconditionally: channel 0 is
never freed, it stays in `fm_channel_order`, and note 60 is remapped to
channel 1. The claim says channel 0 is removed from both `note2channel`
and `order` right after the tunedown, which fails here: `0` is still in
the order list of the final state. -/
theorem C1_strike_existing_note_trace :
    allocRun [.strike 60, .strike 60] =
      ⟨[0, 1], [(60, 1)], [0]⟩ ∧
    0 ∈ (allocRun [.strike 60, .strike 60]).order := by
  constructor <;> decide

/-! ## Envelope generator and sequencer, src/softsynthopl2.py lines 141-544

The envelope machinery is pure rational arithmetic (linear interpolation);
it is embedded exactly, with numpy arrays as lists of rationals. -/

/-- Embeds `np.linspace(a, b, num)` (endpoint included): `num` samples,
sample `k` is `a + (b - a) * k / (num - 1)`. For `num = 1` numpy returns
`[a]`, which the formula also gives since division by zero is zero in `ℚ`;
for `num = 0` it returns the empty array. -/
def linspace (a b : ℚ) (num : ℕ) : List ℚ :=
  (List.range num).map (fun k : ℕ => a + (b - a) * (k : ℚ) / ((num : ℚ) - 1))

/-- The envelope phases, `EnvelopeSequencer.PHASE_*` (lines 228-234). The
source uses the integers 0..6; only these seven values are ever assigned. -/
inductive EnvPhase where
  | init
  | attack
  | decay
  | sustain
  | releasing
  | tunedown
  | done
deriving DecidableEq

/-- Embeds `EnvelopeParameters` (lines 141-212): attack, decay and release
times in seconds, sustain level, hold flag. -/
structure EnvelopeParameters where
  attack : ℚ
  decay : ℚ
  sustain : ℚ
  release : ℚ
  hold : Bool
deriving DecidableEq

/-- Embeds `EnvelopeState` (lines 215-224). -/
structure EnvelopeState where
  phase : EnvPhase
  idx : ℕ
  struck : Bool
  released : Bool
  amp : ℚ
deriving DecidableEq

/-- The three segment caches of `EnvelopeGenerator` (lines 361-363),
cleared on `set_parameters`. -/
structure EnvelopeCaches where
  cache_attack : List ℚ
  cache_decay : List ℚ
  cache_release : List ℚ
deriving DecidableEq

/-- Empty caches, as set by `set_parameters` (lines 358-365). -/
def emptyCaches : EnvelopeCaches := ⟨[], [], []⟩

/-- Segment length `math.ceil(self.samplerate * self.p.get_attack())`
(line 371); nonnegative times assumed (a negative time would make the
source raise in `_calculate_env_fragment`). -/
def nAttack (S : ℕ) (p : EnvelopeParameters) : ℕ := ⌈(S : ℚ) * p.attack⌉.toNat

/-- Segment length for the decay phase (line 372). -/
def nDecay (S : ℕ) (p : EnvelopeParameters) : ℕ := ⌈(S : ℚ) * p.decay⌉.toNat

/-- Segment length for the release phase (line 373). -/
def nRelease (S : ℕ) (p : EnvelopeParameters) : ℕ := ⌈(S : ℚ) * p.release⌉.toNat

/-- Embeds `_calculate_env_fragment` (lines 522-543): the linear segment
from `val_start` to `val_end` over `num` samples, sampled from index
`idx_start` to `idx_end`. `idx_start` is an integer because the caller
passes `len(cache) - 1`, which is `-1` on an empty cache. Returns the
empty list when `idx_start = idx_end` or `num = 0` (the source also raises
for `idx_start > idx_end` or `num < 0`, which cannot happen at the call
site for nonnegative segment lengths). -/
def envCalcFragment (valStart valEnd : ℚ) (num : ℕ) (idxStart : ℤ) (idxEnd : ℕ) :
    List ℚ :=
  if idxStart = (idxEnd : ℤ) ∨ num = 0 then []
  else
    let tangent := (valEnd - valStart) / (num : ℚ)
    let a := valStart + tangent * (idxStart : ℚ)
    let b := valStart + tangent * (idxEnd : ℚ)
    linspace a b ((idxEnd : ℤ) - idxStart).toNat

/-- Embeds `_append_env_fragment` (lines 492-519). Chooses the end index
from the samples still missing in the block, extends the cache if needed
(note the source seeds the extension from index `len(cache) - 1`), slices
`cache[idx:_end]`, appends it to the wave and returns the new wave, cache
and index. -/
def envAppendFragment (wave cache : List ℚ) (num idx : ℕ) (valStart valEnd : ℚ)
    (blocksize : ℕ) : List ℚ × List ℚ × ℕ :=
  let e := min (idx + (blocksize - wave.length)) num
  let cache :=
    if cache.length < e then
      cache ++ envCalcFragment valStart valEnd num ((cache.length : ℤ) - 1) e
    else cache
  let frag := (cache.drop idx).take (e - idx)
  (wave ++ frag, cache, e)

/-- A wave-caches-state triple threaded through the phases of
`EnvelopeGenerator.generate`. -/
abbrev GenAcc := List ℚ × EnvelopeCaches × EnvelopeState

/-- The attack block of `generate` (lines 385-395): append the attack
fragment; on reaching the segment end, move to the decay phase. -/
def genAttack (S blocksize : ℕ) (p : EnvelopeParameters) (g : GenAcc) : GenAcc :=
  if g.2.2.phase = .attack then
    let r := envAppendFragment g.1 g.2.1.cache_attack (nAttack S p) g.2.2.idx 0 1 blocksize
    let st := { g.2.2 with idx := r.2.2 }
    let st := if st.idx = nAttack S p then { st with phase := .decay, idx := 0 } else st
    (r.1, { g.2.1 with cache_attack := r.2.1 }, st)
  else g

/-- The decay block of `generate` (lines 398-408): decay goes from 1 to the
sustain level; on reaching the end, move to sustain when `hold` is set,
else to release. -/
def genDecay (S blocksize : ℕ) (p : EnvelopeParameters) (g : GenAcc) : GenAcc :=
  if g.2.2.phase = .decay then
    let r := envAppendFragment g.1 g.2.1.cache_decay (nDecay S p) g.2.2.idx 1 p.sustain blocksize
    let st := { g.2.2 with idx := r.2.2 }
    let st :=
      if st.idx = nDecay S p then
        { st with phase := if p.hold then .sustain else .releasing, idx := 0 }
      else st
    (r.1, { g.2.1 with cache_decay := r.2.1 }, st)
  else g

/-- The sustain block of `generate` (lines 411-426): pad the rest of the
block with a linear space from the stored amplitude to the sustain value;
when `released` is set, move to the release phase. -/
def genSustain (blocksize : ℕ) (p : EnvelopeParameters) (g : GenAcc) : GenAcc :=
  if g.2.2.phase = .sustain then
    let w := g.1 ++ linspace g.2.2.amp p.sustain (blocksize - g.1.length)
    let st := if g.2.2.released then { g.2.2 with phase := .releasing } else g.2.2
    (w, g.2.1, st)
  else g

/-- The release block of `generate` (lines 429-439): release goes from the
sustain level to 0; on reaching the end, move to tunedown. -/
def genRelease (S blocksize : ℕ) (p : EnvelopeParameters) (g : GenAcc) : GenAcc :=
  if g.2.2.phase = .releasing then
    let r := envAppendFragment g.1 g.2.1.cache_release (nRelease S p) g.2.2.idx p.sustain 0 blocksize
    let st := { g.2.2 with idx := r.2.2 }
    let st := if st.idx = nRelease S p then { st with phase := .tunedown, idx := 0 } else st
    (r.1, { g.2.1 with cache_release := r.2.1 }, st)
  else g

/-- The tunedown block of `generate` (lines 442-469): ramp the stored
amplitude down to 0 at a loss of 1/7 per millisecond, capped by the
remaining room in the block; on reaching 0, move to the done phase. The
source computes `td_samples = math.ceil(state.amp / loss_per_sample)`; for
a negative amplitude that ceiling is negative and `np.linspace` would
raise, so the embedding truncates it at 0 via `Int.toNat`. -/
def genTunedown (S blocksize : ℕ) (g : GenAcc) : GenAcc :=
  if g.2.2.phase = .tunedown then
    let lossPerSample : ℚ := (1 / 7) / ((S : ℚ) / 1000)
    let td := (⌈g.2.2.amp / lossPerSample⌉).toNat
    let fragmentLength := blocksize - g.1.length
    let td := if fragmentLength < td then fragmentLength else td
    let a1 := g.2.2.amp
    let a2 := g.2.2.amp - lossPerSample * (td : ℚ)
    let a2 := if a2 < 0 then 0 else a2
    let w := g.1 ++ linspace a1 a2 td
    let st := if a2 = 0 then { g.2.2 with phase := .done } else g.2.2
    (w, g.2.1, st)
  else g

/-- The init-or-done block of `generate` (lines 472-477): pad the rest of
the block with silence. -/
def genInitDone (blocksize : ℕ) (g : GenAcc) : GenAcc :=
  if g.2.2.phase = .init ∨ g.2.2.phase = .done then
    (g.1 ++ List.replicate (blocksize - g.1.length) 0, g.2.1, g.2.2)
  else g

/-- Embeds `EnvelopeGenerator.generate` (lines 368-484): the sequential
phase blocks above, then `state.amp = wave[-1]` (`getLastD` with default 0;
for a positive block size the wave is never empty). -/
def generate (S : ℕ) (p : EnvelopeParameters) (c : EnvelopeCaches)
    (st : EnvelopeState) (blocksize : ℕ) : GenAcc :=
  let g : GenAcc := ([], c, st)
  let g := genAttack S blocksize p g
  let g := genDecay S blocksize p g
  let g := genSustain blocksize p g
  let g := genRelease S blocksize p g
  let g := genTunedown S blocksize g
  let g := genInitDone blocksize g
  (g.1, g.2.1, { g.2.2 with amp := g.1.getLastD 0 })

/-- Embeds `EnvelopeSequencer.get` (lines 260-304) for a sequencer with a
generator: run `generate`, then handle the strike flag. When `struck` is
set and the phase (after generation) is neither INIT nor DONE, the block
is replaced by a linear ramp from its first sample down to 0 over
`r = int(samplerate * 0.007)` samples (integer truncation — `samplerate * 7
/ 1000` in natural division; 308 at 44100 Hz), capped at the block size,
padded with zeros; in either case the state is reset to a fresh attack and
the strike flag cleared. The phase and done callbacks only observe the
transition and do not change the state. -/
def seqGet (S blocksize : ℕ) (p : EnvelopeParameters) (c : EnvelopeCaches)
    (st : EnvelopeState) : GenAcc :=
  let g := generate S p c st blocksize
  if g.2.2.struck then
    let fragment :=
      if ¬(g.2.2.phase = .init ∨ g.2.2.phase = .done) then
        let r := S * 7 / 1000
        let r := if blocksize < r then blocksize else r
        linspace (g.1.headD 0) 0 r ++ List.replicate (blocksize - r) 0
      else g.1
    (fragment, g.2.1,
      { g.2.2 with phase := .attack, idx := 0, released := false, struck := false })
  else g

/-! ## Helper lemmas about linspace and the generator -/

theorem linspace_length (a b : ℚ) (n : ℕ) : (linspace a b n).length = n := by
  simp [linspace]

theorem linspace_headD (a b : ℚ) (n : ℕ) (hn : 0 < n) : (linspace a b n).headD 0 = a := by
  cases n with
  | zero => omega
  | succ m =>
    rw [linspace, List.range_succ_eq_map]
    simp

theorem linspace_take_headD (a b : ℚ) (n k : ℕ) (hn : 0 < n) (hk : 0 < k) :
    ((linspace a b n).take k).headD 0 = a := by
  cases n with
  | zero => omega
  | succ m =>
    cases k with
    | zero => omega
    | succ j =>
      rw [linspace, List.range_succ_eq_map]
      simp

theorem linspace_getD (a b : ℚ) (n k : ℕ) (hk : k < n) :
    (linspace a b n).getD k 0 = a + (b - a) * k / ((n : ℚ) - 1) := by
  rw [linspace, List.getD_eq_getElem?_getD, List.getElem?_map, List.getElem?_range hk]
  rfl

theorem getD_append_lt (l1 l2 : List ℚ) (k : ℕ) (h : k < l1.length) :
    (l1 ++ l2).getD k 0 = l1.getD k 0 := by
  rw [List.getD_eq_getElem?_getD, List.getD_eq_getElem?_getD, List.getElem?_append,
    if_pos h]

theorem replicate_getLastD (n : ℕ) : ((List.replicate n (0 : ℚ)).getLast?).getD 0 = 0 := by
  cases n <;> simp [List.getLast?_replicate]

theorem genAttack_struck (S B : ℕ) (p : EnvelopeParameters) (g : GenAcc) :
    (genAttack S B p g).2.2.struck = g.2.2.struck := by
  unfold genAttack
  split
  · dsimp only; split <;> rfl
  · rfl

theorem genDecay_struck (S B : ℕ) (p : EnvelopeParameters) (g : GenAcc) :
    (genDecay S B p g).2.2.struck = g.2.2.struck := by
  unfold genDecay
  split
  · dsimp only; split <;> rfl
  · rfl

theorem genSustain_struck (B : ℕ) (p : EnvelopeParameters) (g : GenAcc) :
    (genSustain B p g).2.2.struck = g.2.2.struck := by
  unfold genSustain
  split
  · dsimp only; split <;> rfl
  · rfl

theorem genRelease_struck (S B : ℕ) (p : EnvelopeParameters) (g : GenAcc) :
    (genRelease S B p g).2.2.struck = g.2.2.struck := by
  unfold genRelease
  split
  · dsimp only; split <;> rfl
  · rfl

theorem genTunedown_struck (S B : ℕ) (g : GenAcc) :
    (genTunedown S B g).2.2.struck = g.2.2.struck := by
  unfold genTunedown
  split
  · dsimp only
    repeat' split
    all_goals rfl
  · rfl

theorem genInitDone_struck (B : ℕ) (g : GenAcc) :
    (genInitDone B g).2.2.struck = g.2.2.struck := by
  unfold genInitDone
  split <;> rfl

theorem generate_struck (S : ℕ) (p : EnvelopeParameters) (c : EnvelopeCaches)
    (st : EnvelopeState) (B : ℕ) :
    (generate S p c st B).2.2.struck = st.struck := by
  unfold generate
  dsimp only
  rw [genInitDone_struck, genTunedown_struck, genRelease_struck, genSustain_struck,
    genDecay_struck, genAttack_struck]

theorem if_lt_eq_min (r B : ℕ) : (if B < r then B else r) = min r B := by
  split <;> omega

theorem genAttack_skip (S B : ℕ) (p : EnvelopeParameters) (g : GenAcc)
    (h : g.2.2.phase ≠ .attack) : genAttack S B p g = g := by
  unfold genAttack; rw [if_neg h]

theorem genDecay_skip (S B : ℕ) (p : EnvelopeParameters) (g : GenAcc)
    (h : g.2.2.phase ≠ .decay) : genDecay S B p g = g := by
  unfold genDecay; rw [if_neg h]

theorem genSustain_skip (B : ℕ) (p : EnvelopeParameters) (g : GenAcc)
    (h : g.2.2.phase ≠ .sustain) : genSustain B p g = g := by
  unfold genSustain; rw [if_neg h]

theorem genRelease_skip (S B : ℕ) (p : EnvelopeParameters) (g : GenAcc)
    (h : g.2.2.phase ≠ .releasing) : genRelease S B p g = g := by
  unfold genRelease; rw [if_neg h]

theorem genTunedown_skip (S B : ℕ) (g : GenAcc)
    (h : g.2.2.phase ≠ .tunedown) : genTunedown S B g = g := by
  unfold genTunedown; rw [if_neg h]

theorem genInitDone_skip (B : ℕ) (g : GenAcc)
    (h : ¬(g.2.2.phase = .init ∨ g.2.2.phase = .done)) : genInitDone B g = g := by
  unfold genInitDone; rw [if_neg h]

theorem generate_sustain (S B : ℕ) (p : EnvelopeParameters) (c : EnvelopeCaches)
    (st : EnvelopeState) (h : st.phase = .sustain) (hrel : st.released = false) :
    generate S p c st B =
      (linspace st.amp p.sustain B, c,
        { st with amp := (linspace st.amp p.sustain B).getLastD 0 }) := by
  unfold generate genAttack genDecay genSustain genRelease genTunedown genInitDone
  simp [h, hrel]

/-- General form of the restrike handling in `EnvelopeSequencer.get`: when
the strike flag is raised and the post-generation phase is neither INIT
nor DONE, the emitted block is a truncated-length ramp from the first
generated sample to 0, zero padded, and the state restarts the attack. -/
theorem seqGet_restrike (S B : ℕ) (p : EnvelopeParameters) (c : EnvelopeCaches)
    (st : EnvelopeState) (hstruck : st.struck = true)
    (hphase : ¬((generate S p c st B).2.2.phase = .init ∨
      (generate S p c st B).2.2.phase = .done)) :
    (seqGet S B p c st).1 =
      linspace ((generate S p c st B).1.headD 0) 0 (min (S * 7 / 1000) B) ++
        List.replicate (B - min (S * 7 / 1000) B) 0 ∧
    (seqGet S B p c st).2.2.phase = .attack ∧
    (seqGet S B p c st).2.2.idx = 0 ∧
    (seqGet S B p c st).2.2.released = false ∧
    (seqGet S B p c st).2.2.struck = false := by
  have hs : (generate S p c st B).2.2.struck = true := by
    rw [generate_struck]; exact hstruck
  unfold seqGet
  dsimp only
  rw [if_pos hs, if_pos hphase, if_lt_eq_min]
  exact ⟨rfl, rfl, rfl, rfl, rfl⟩

theorem generate_init (S : ℕ) (p : EnvelopeParameters) (c : EnvelopeCaches)
    (st : EnvelopeState) (B : ℕ) (h : st.phase = .init) :
    generate S p c st B = (List.replicate B 0, c, { st with amp := 0 }) := by
  unfold generate genAttack genDecay genSustain genRelease genTunedown genInitDone
  simp [h, replicate_getLastD]

theorem envCalcFragment_attack_seed :
    envCalcFragment 0 1 44100 (-1) 441 = linspace (-(1/44100)) (1/100) 442 := by
  unfold envCalcFragment
  rw [if_neg (by norm_num)]
  norm_num
  rfl

/-! ## Claim C10: one-block strike latency out of INIT -/

/-- Claim C10: for an envelope in phase INIT with the strike flag raised,
the next `get` returns a block of silence (the generator runs with phase
INIT, padding with zeros, before the strike flag is handled, and the INIT
branch of the strike handling emits no ramp) and leaves the state in phase
ATTACK with index 0, `released = false`, `struck = false` (and a stored
amplitude of 0), so the attack ramp can only start with the following
block. -/
theorem C10_init_strike_zero_block (S B : ℕ) (p : EnvelopeParameters)
    (c : EnvelopeCaches) (st : EnvelopeState)
    (hph : st.phase = .init) (hst : st.struck = true) :
    (seqGet S B p c st).1 = List.replicate B 0 ∧
    (seqGet S B p c st).2.2 = ⟨.attack, 0, false, false, 0⟩ := by
  obtain ⟨ph, ix, sk, rl, am⟩ := st
  simp only at hph hst
  subst hph hst
  unfold seqGet
  rw [generate_init _ _ _ _ _ rfl]
  simp

theorem C10_init_strike_zero_block_witness :
    (seqGet 44100 5 ⟨1/100, 0, 9/10, 1/4, true⟩ emptyCaches ⟨.init, 3, true, true, 7⟩).1 =
      List.replicate 5 0 :=
  (C10_init_strike_zero_block 44100 5 ⟨1/100, 0, 9/10, 1/4, true⟩ emptyCaches
    ⟨.init, 3, true, true, 7⟩ rfl rfl).1

/-! ## Claim C3: restrike ramp -/

/-- Claim C3 as stated is false: the source computes the restrike ramp
length as `int(samplerate * 0.007)`, a truncation (308 samples at
44100 Hz), not the ceiling `⌈0.007 * 44100⌉ = 309` the claim states. At a
sustain-phase state with amplitude 1 the emitted block is
`linspace 1 0 308 ++ 133 zeros`, which differs from the claimed
`linspace 1 0 309 ++ 132 zeros` (already at sample index 1, and at index
307 the code gives 0 while the claim gives 1/308). -/
theorem C3_restrike_ceil_counterexample :
    ¬((seqGet 44100 441 ⟨0, 0, 1, 0, true⟩ emptyCaches ⟨.sustain, 0, true, false, 1⟩).1 =
      linspace 1 0 (⌈(0.007 : ℚ) * 44100⌉.toNat) ++
        List.replicate (441 - ⌈(0.007 : ℚ) * 44100⌉.toNat) 0) := by
  have hceil : (⌈(0.007 : ℚ) * 44100⌉).toNat = 309 := by
    have h : ⌈(0.007 : ℚ) * 44100⌉ = 309 := by
      rw [Int.ceil_eq_iff]
      norm_num
    rw [h]; rfl
  have hgen := generate_sustain 44100 441 ⟨0, 0, 1, 0, true⟩ emptyCaches
    ⟨.sustain, 0, true, false, 1⟩ rfl rfl
  have hphase : ¬((generate 44100 ⟨0, 0, 1, 0, true⟩ emptyCaches
      ⟨.sustain, 0, true, false, 1⟩ 441).2.2.phase = .init ∨
      (generate 44100 ⟨0, 0, 1, 0, true⟩ emptyCaches
      ⟨.sustain, 0, true, false, 1⟩ 441).2.2.phase = .done) := by
    rw [hgen]; simp
  have hcode := (seqGet_restrike 44100 441 ⟨0, 0, 1, 0, true⟩ emptyCaches
    ⟨.sustain, 0, true, false, 1⟩ rfl hphase).1
  have hhead : (generate 44100 ⟨0, 0, 1, 0, true⟩ emptyCaches
      ⟨.sustain, 0, true, false, 1⟩ 441).1.headD 0 = 1 := by
    rw [hgen]
    exact linspace_headD 1 1 441 (by norm_num)
  have hmin : min (44100 * 7 / 1000) 441 = 308 := by norm_num
  intro hEq
  rw [hceil] at hEq
  rw [hcode, hhead, hmin] at hEq
  have h307 := congrArg (fun l => l.getD 307 (0 : ℚ)) hEq
  simp only at h307
  rw [getD_append_lt _ _ _ (by rw [linspace_length]; omega),
    getD_append_lt _ _ _ (by rw [linspace_length]; omega),
    linspace_getD 1 0 308 307 (by omega),
    linspace_getD 1 0 309 307 (by omega)] at h307
  norm_num at h307

/-- Claim C3 amended: the ramp length is the truncation
`int(0.007 * samplerate)` (equal to `samplerate * 7 / 1000` in natural
division), capped at the block size, and the phase condition is on the
state after the block was generated (generation may itself move the phase,
e.g. finish a release and tunedown within the block, in which case no ramp
is emitted). Then: when the strike flag is set and the post-generation
phase is neither INIT nor DONE, `get` emits a linear ramp from the first
sample of the generated block down to 0 over that many samples, padded
with zeros, and the state is reset to phase ATTACK, idx 0,
`released = false`, `struck = false`. -/
theorem C3_restrike_ramp_amended (S B : ℕ) (p : EnvelopeParameters)
    (c : EnvelopeCaches) (st : EnvelopeState)
    (hstruck : st.struck = true)
    (hphase : ¬((generate S p c st B).2.2.phase = .init ∨
      (generate S p c st B).2.2.phase = .done)) :
    (seqGet S B p c st).1 =
      linspace ((generate S p c st B).1.headD 0) 0 (min (S * 7 / 1000) B) ++
        List.replicate (B - min (S * 7 / 1000) B) 0 ∧
    (seqGet S B p c st).2.2.phase = .attack ∧
    (seqGet S B p c st).2.2.idx = 0 ∧
    (seqGet S B p c st).2.2.released = false ∧
    (seqGet S B p c st).2.2.struck = false :=
  seqGet_restrike S B p c st hstruck hphase

theorem C3_restrike_ramp_amended_witness :
    (seqGet 44100 441 ⟨0, 0, 1, 0, true⟩ emptyCaches ⟨.sustain, 0, true, false, 1⟩).1 =
      linspace ((generate 44100 ⟨0, 0, 1, 0, true⟩ emptyCaches
          ⟨.sustain, 0, true, false, 1⟩ 441).1.headD 0) 0 (min (44100 * 7 / 1000) 441) ++
        List.replicate (441 - min (44100 * 7 / 1000) 441) 0 :=
  (C3_restrike_ramp_amended 44100 441 ⟨0, 0, 1, 0, true⟩ emptyCaches
    ⟨.sustain, 0, true, false, 1⟩ rfl
    (by
      rw [generate_sustain 44100 441 ⟨0, 0, 1, 0, true⟩ emptyCaches
        ⟨.sustain, 0, true, false, 1⟩ rfl rfl]
      simp)).1

/-! ## Claim C7: attack ramp values -/

/-- Claim C7 evaluated on the code: with samplerate 44100, block size 441
and attack time 1 s, the attack segment has `⌈44100 * 1⌉ = 44100` samples
and the claim says the sample at attack index 0 is `0/44100 = 0`. The
code seeds the segment cache with `_calculate_env_fragment` starting from
index `len(cache) - 1 = -1` on an empty cache, so the first emitted attack
sample is `-1/44100`, not 0: the envelope starts below zero, while the
source comments and the spec describe a linear interpolation from 0 to 1. -/
theorem C7_attack_first_sample :
    (generate 44100 ⟨1, 0, 9/10, 1/4, true⟩ emptyCaches
      ⟨.attack, 0, false, false, 0⟩ 441).1.headD 0 = -(1/44100) ∧
    (-(1/44100) : ℚ) ≠ 0 := by
  have hn : nAttack 44100 ⟨1, 0, 9/10, 1/4, true⟩ = 44100 := by
    unfold nAttack
    norm_num
    rfl
  have hA : genAttack 44100 441 ⟨1, 0, 9/10, 1/4, true⟩
      (([] : List ℚ), emptyCaches, ⟨.attack, 0, false, false, 0⟩) =
      ((linspace (-(1/44100)) (1/100) 442).take 441,
        ⟨linspace (-(1/44100)) (1/100) 442, [], []⟩,
        ⟨.attack, 441, false, false, 0⟩) := by
    unfold genAttack envAppendFragment
    rw [hn, ← envCalcFragment_attack_seed]
    norm_num [emptyCaches]
  unfold generate
  dsimp only
  rw [hA,
    genDecay_skip _ _ _ _ (by simp),
    genSustain_skip _ _ _ (by simp),
    genRelease_skip _ _ _ _ (by simp),
    genTunedown_skip _ _ _ (by simp),
    genInitDone_skip _ _ (by simp)]
  dsimp only
  rw [linspace_take_headD _ _ _ _ (by omega) (by omega)]
  norm_num

/-! ## Claim C4: FMChannel done callback, src/softsynthopl2.py lines 966-1071

`FMChannel.__init__` sets `self.cell_active = [False]*CELL_COUNT`
(line 991) and no statement anywhere in the source ever stores `True` in
`cell_active`; `cell_done_callback` (lines 1065-1071) sets the entry to
`False` and calls `self.done()` whenever no entry is `True` — which is
always. `done()` (waveoutput.py lines 41-44) invokes the registered
completion callback. -/

/-- `FMChannel.CELL_COUNT = 2` (line 967). -/
def CELL_COUNT : ℕ := 2

/-- The part of the FMChannel state that drives its done callback: the
`cell_active` list and a count of how many times the channel's completion
callback has been invoked through `done()`. -/
structure FMChannelDoneState where
  cell_active : List Bool
  done_emitted : ℕ
deriving DecidableEq

/-- The `cell_active` state after `__init__` (line 991): all `False`, and
no completion callback emitted yet. No code path ever sets an entry to
`True`, so this is also the state at the moment any cell finishes. -/
def fmDoneInit : FMChannelDoneState := ⟨List.replicate CELL_COUNT false, 0⟩

/-- Embeds `cell_done_callback` (lines 1065-1071): clear the cell's active
flag; if no flag is `True`, call `done()`, which invokes the completion
callback. -/
def cellDoneCallback (chid : ℕ) (s : FMChannelDoneState) : FMChannelDoneState :=
  let ca := s.cell_active.set chid false
  if ¬(true ∈ ca) then ⟨ca, s.done_emitted + 1⟩ else ⟨ca, s.done_emitted⟩

/-- Claim C4 evaluated on the code: starting from the constructed state
(`cell_active = [False, False]`, which is also the state after any strike,
since nothing ever sets an entry to `True`), the first cell finishing
already fires the channel completion callback — before the second cell's
envelope has reported DONE — and the second cell finishing fires it again:
one emission after a single cell, two after both, never the claimed
exactly-once-after-both. -/
theorem C4_channel_done_per_cell :
    (cellDoneCallback 0 fmDoneInit).done_emitted = 1 ∧
    (cellDoneCallback 1 (cellDoneCallback 0 fmDoneInit)).done_emitted = 2 := by
  decide

/-! ## Claim C8: modulation index buttons, src/softsynthopl2.py lines 686-801 -/

/-- `WaveControls.MODECOLOR` (lines 687-690): off, green, yellow, red
(color codes from dispatchpanel.py); only its length matters here. -/
def MODECOLOR : List ℕ := [0, 1, 5, 3]

/-- `WaveControls.WAVENOTES = [22, 23]` (line 692). -/
def WAVENOTES : List ℕ := [22, 23]

/-- `WaveControls.FMNOTE = 21` (line 693). -/
def FMNOTE : ℕ := 21

/-- `WaveControls.MODIDXNOTES = [65, 64]` (line 694): index 0 is note 65,
index 1 is note 64. -/
def MODIDXNOTES : List ℕ := [65, 64]

/-- The `WaveControls` state: per-operator waveform numbers, FM mode flag,
modulation index (a python int). LED colors are outputs, not state. -/
structure WaveControlsState where
  waveform : List ℕ
  fm_mode : Bool
  modidx : ℤ
deriving DecidableEq

/-- Embeds `set_modidx` (lines 774-797): store the value, then clamp at 0
from below and at 15 from above. -/
def setModidx (m : ℤ) (s : WaveControlsState) : WaveControlsState :=
  let v := m
  let v := if v < 0 then 0 else v
  let v := if 15 < v then 15 else v
  { s with modidx := v }

/-- Embeds `set_waveform` (lines 742-752) for the state (the color output
and callback fan-out do not change `WaveControls`). -/
def wcSetWaveform (w idx : ℕ) (s : WaveControlsState) : WaveControlsState :=
  { s with waveform := s.waveform.set idx w }

/-- Embeds `set_fm_mode` (lines 759-767) for the state. -/
def setFmMode (b : Bool) (s : WaveControlsState) : WaveControlsState :=
  { s with fm_mode := b }

/-- Embeds `process_button_pressed` (lines 720-739): wave notes cycle the
waveform through the four mode colors, note 21 toggles FM mode, note
`MODIDXNOTES[0] = 65` decrements the modulation index and note
`MODIDXNOTES[1] = 64` increments it. -/
def processButtonPressed (note : ℕ) (s : WaveControlsState) : WaveControlsState :=
  let s :=
    if note ∈ WAVENOTES then
      let idx := WAVENOTES.indexOf note
      let wf := s.waveform.getD idx 0 + 1
      let wf := if MODECOLOR.length ≤ wf then 0 else wf
      wcSetWaveform wf idx s
    else s
  let s := if note = FMNOTE then setFmMode (!s.fm_mode) s else s
  let s := if note = MODIDXNOTES.getD 0 0 then setModidx (s.modidx - 1) s else s
  let s := if note = MODIDXNOTES.getD 1 0 then setModidx (s.modidx + 1) s else s
  s

/-- Claim C8 as stated is false: `MODIDXNOTES` is `[65, 64]`, so pressing
button 64 matches `MODIDXNOTES[1]` and increments the modulation index,
while the claim says button 64 decrements it. From modulation index 5,
pressing 64 yields 6, not 4. -/
theorem C8_button64_counterexample :
    (processButtonPressed 64 ⟨[1, 1], true, 5⟩).modidx = 6 ∧
    ¬((processButtonPressed 64 ⟨[1, 1], true, 5⟩).modidx = 5 - 1) := by
  decide

theorem processButtonPressed_modidx_other (note : ℕ) (s : WaveControlsState)
    (h65 : note ≠ 65) (h64 : note ≠ 64) :
    (processButtonPressed note s).modidx = s.modidx := by
  unfold processButtonPressed wcSetWaveform setFmMode
  dsimp only
  rw [show MODIDXNOTES.getD 0 0 = 65 from rfl, show MODIDXNOTES.getD 1 0 = 64 from rfl,
    if_neg h65, if_neg h64]
  split_ifs <;> rfl

/-- Claim C8 amended: the roles of the two buttons are swapped — a press
of button 65 decrements the modulation index and a press of button 64
increments it, saturating in `[0, 15]`; and for a state with modulation
index in `[0, 15]` every button press leaves it in `[0, 15]`. -/
theorem C8_modidx_buttons_amended (s : WaveControlsState)
    (h0 : 0 ≤ s.modidx) (h15 : s.modidx ≤ 15) :
    (processButtonPressed 65 s).modidx = max 0 (s.modidx - 1) ∧
    (processButtonPressed 64 s).modidx = min 15 (s.modidx + 1) ∧
    ∀ note, 0 ≤ (processButtonPressed note s).modidx ∧
      (processButtonPressed note s).modidx ≤ 15 := by
  have h65 : (processButtonPressed 65 s).modidx = max 0 (s.modidx - 1) := by
    simp [processButtonPressed, WAVENOTES, FMNOTE, MODIDXNOTES, setModidx]
    omega
  have h64 : (processButtonPressed 64 s).modidx = min 15 (s.modidx + 1) := by
    simp [processButtonPressed, WAVENOTES, FMNOTE, MODIDXNOTES, setModidx]
    omega
  refine ⟨h65, h64, ?_⟩
  intro note
  by_cases hn65 : note = 65
  · subst hn65; rw [h65]; omega
  by_cases hn64 : note = 64
  · subst hn64; rw [h64]; omega
  rw [processButtonPressed_modidx_other note s hn65 hn64]
  exact ⟨h0, h15⟩

theorem C8_modidx_buttons_amended_witness :
    (processButtonPressed 65 ⟨[1, 1], true, 5⟩).modidx = max 0 (5 - 1) :=
  (C8_modidx_buttons_amended ⟨[1, 1], true, 5⟩ (by norm_num) (by norm_num)).1

/-! ## Wave pipeline: FixedWaveLoopSequencer, Cell, FMChannel
(src/softsynthopl2.py lines 94-138 and 805-1071)

The pointwise waveform functions are abstracted into a record: every float
is a rational, so `np.sin`, `scipy.signal.sawtooth`, `scipy.signal.square`
are functions on the rationals and `2 * np.pi` is a rational constant;
nothing in the claims depends on their values. -/

/-- The numpy pointwise waveform functions and the float `2 * np.pi`. -/
structure WaveOps where
  sinF : ℚ → ℚ
  sawF : ℚ → ℚ
  squF : ℚ → ℚ
  twoPi : ℚ

/-- State of `FixedWaveLoopSequencer` (lines 94-138): the stored samples
(repeated at construction to at least the block size) and the read index. -/
structure LoopSeqState where
  samples : List ℚ
  idx : ℕ
deriving DecidableEq

/-- The constructor loop of `FixedWaveLoopSequencer` (lines 106-108):
`while len(self.samples) < blocksize: append(samples)`, as fuel recursion
(`blocksize` rounds suffice for a nonempty input; for an empty input the
python loop never terminates, so no such sequencer object exists). -/
def repeatToLen (orig : List ℚ) (blocksize : ℕ) : ℕ → List ℚ → List ℚ
  | 0, cur => cur
  | fuel + 1, cur =>
    if cur.length < blocksize then repeatToLen orig blocksize fuel (cur ++ orig) else cur

/-- `FixedWaveLoopSequencer.__init__` (lines 96-112). -/
def mkLoopSeq (samples : List ℚ) (blocksize : ℕ) : LoopSeqState :=
  ⟨repeatToLen samples blocksize blocksize samples, 0⟩

/-- Embeds `FixedWaveLoopSequencer.get` (lines 116-138): slice up to
`blocksize` samples; if some are missing, wrap around to the start. -/
def loopGet (blocksize : ℕ) (st : LoopSeqState) : List ℚ × LoopSeqState :=
  let e := min (st.idx + blocksize) st.samples.length
  let wave := (st.samples.drop st.idx).take (e - st.idx)
  let remain := blocksize - wave.length
  if 0 < remain then
    (wave ++ st.samples.take remain, ⟨st.samples, remain⟩)
  else (wave, ⟨st.samples, e⟩)

/-- `Cell.WAVE_OFF = 0` (line 807). -/
def WAVE_OFF : ℕ := 0

/-- `Cell.WAVE_SINE = 1` (line 808). -/
def WAVE_SINE : ℕ := 1

/-- `Cell.WAVE_SAWTOOTH = 2` (line 809). -/
def WAVE_SAWTOOTH : ℕ := 2

/-- `Cell.WAVE_SQUARE = 3` (line 810). -/
def WAVE_SQUARE : ℕ := 3

/-- Embeds `Cell._generate_wave` (lines 903-917) for a non-None base: the
waveform function applied pointwise; unknown waveforms (including None,
`WAVE_OFF`) give silence of the same length. -/
def generateWave (ops : WaveOps) (waveform : Option ℕ) (base : List ℚ) : List ℚ :=
  if waveform = some WAVE_SINE then base.map ops.sinF
  else if waveform = some WAVE_SAWTOOTH then base.map ops.sawF
  else if waveform = some WAVE_SQUARE then base.map ops.squF
  else base.map (fun _ => 0)

/-- The state of a `Cell` (lines 805-963): waveform and frequency are None
until assigned; `midx` is the modulation index; `has_modulator` mirrors
`self.modulator is not None` (the modulator itself, always the sibling
cell, lives in the flattened `FMChannelState` below); `wave_gen` is the
loop sequencer built by `_update_wavegen`; the envelope generator and
sequencer state. -/
structure CellState where
  waveform : Option ℕ
  frequency : Option ℚ
  midx : ℚ
  has_modulator : Bool
  wave_gen : Option LoopSeqState
  envp : EnvelopeParameters
  caches : EnvelopeCaches
  env : EnvelopeState

/-- Embeds `Cell._update_wavegen` (lines 882-900): with no frequency the
wave generator is left unchanged; otherwise build one period of length
`samplerate // frequency` over `[0, 2π]` — the raw phase ramp when a
modulator is attached, the shaped waveform otherwise — and store a fresh
loop sequencer on it. -/
def updateWavegen (ops : WaveOps) (S blocksize : ℕ) (c : CellState) : CellState :=
  match c.frequency with
  | none => c
  | some f =>
    let t := linspace 0 ops.twoPi (((S : ℚ) / f).floor.toNat)
    let wave := if c.has_modulator then t else generateWave ops c.waveform t
    { c with wave_gen := some (mkLoopSeq wave blocksize) }

/-- Embeds `Cell.set_frequency` (lines 852-857). -/
def cellSetFrequency (ops : WaveOps) (S blocksize : ℕ) (f : ℚ) (c : CellState) :
    CellState :=
  updateWavegen ops S blocksize ({ c with frequency := some f })

/-- Embeds `Cell.set_waveform` (lines 860-865). -/
def cellSetWaveform (ops : WaveOps) (S blocksize : ℕ) (w : ℕ) (c : CellState) :
    CellState :=
  updateWavegen ops S blocksize ({ c with waveform := some w })

/-- The argument of `set_envelope`: either an `EnvelopeParameters` instance
or some other python value, which fails the `isinstance` check. -/
inductive EnvArg where
  | params (p : EnvelopeParameters)
  | notParams

/-- Embeds `Cell.set_envelope` (lines 843-849): reject anything that is
not an `EnvelopeParameters` before touching the generator; otherwise store
the parameters (which also clears the caches, `set_parameters` lines
358-365). -/
def cellSetEnvelope (a : EnvArg) (c : CellState) : CellState × Option String :=
  match a with
  | .notParams => (c, some "EnvelopeParameters expected!")
  | .params q => ({ c with envp := q, caches := emptyCaches }, none)

/-- Embeds `Cell.get` (lines 942-957), with the modulator's pulled block
passed in by the flattened channel: without a wave generator the cell
emits silence (pulling neither modulator nor envelope); otherwise the
stored wave block — shaped through `_generate_wave` after adding
`midx * modulator` when a modulator block is given — multiplied pointwise
by the envelope block. -/
def cellGet (ops : WaveOps) (S blocksize : ℕ) (modOut : Option (List ℚ))
    (c : CellState) : List ℚ × CellState :=
  match c.wave_gen with
  | none => (List.replicate blocksize 0, c)
  | some wg =>
    let t := loopGet blocksize wg
    let wave :=
      match modOut with
      | none => t.1
      | some m => generateWave ops c.waveform
          (List.zipWith (fun a b => a + c.midx * b) t.1 m)
    let e := seqGet S blocksize c.envp c.caches c.env
    (List.zipWith (· * ·) wave e.1,
      { c with wave_gen := some t.2, caches := e.2.1, env := e.2.2 })

/-- The state of an `FMChannel` (lines 966-1071), flattened: the carrier
`cells[0]`, the modulator cell `cells[1]` (itself never modulated), and
the FM flag. The source invariant maintained by `set_fm_mode` is that
`cells[0].modulator` is `cells[1]` exactly when `fm_mode` holds, which the
flattening realizes by routing `cells[1]`'s pulled block into `cells[0]`
inside `fmGet` exactly when `fm_mode` holds. -/
structure FMChannelState where
  cell0 : CellState
  cell1 : CellState
  fm_mode : Bool

/-- Embeds `FMChannel.set_fm_mode` (lines 1027-1031): store the flag and
reattach or detach the modulator of the carrier (`set_modulator`, lines
868-873, re-runs `_update_wavegen`). -/
def fmSetFmMode (ops : WaveOps) (S blocksize : ℕ) (b : Bool) (ch : FMChannelState) :
    FMChannelState :=
  { ch with
    fm_mode := b
    cell0 := updateWavegen ops S blocksize ({ ch.cell0 with has_modulator := b }) }

/-- Embeds `FMChannel.set_frequency` (lines 1014-1018): both cells get the
same fundamental. -/
def fmSetFrequency (ops : WaveOps) (S blocksize : ℕ) (f : ℚ) (ch : FMChannelState) :
    FMChannelState :=
  { ch with
    cell0 := cellSetFrequency ops S blocksize f ch.cell0
    cell1 := cellSetFrequency ops S blocksize f ch.cell1 }

/-- Embeds `FMChannel.set_envelope` (lines 996-1002): a `ValueError` when
the cell index is out of bounds (`len(self.cells) = CELL_COUNT = 2`),
otherwise delegate to the cell. The checks run before any mutation, so on
an error the state is returned unchanged. -/
def fmSetEnvelope (idx : ℤ) (a : EnvArg) (ch : FMChannelState) :
    FMChannelState × Option String :=
  if idx < 0 ∨ (CELL_COUNT : ℤ) - 1 < idx then
    (ch, some "Cell index is out of bounds!")
  else
    let r := cellSetEnvelope a (if idx = 0 then ch.cell0 else ch.cell1)
    match r.2 with
    | some e => (ch, some e)
    | none =>
      (if idx = 0 then { ch with cell0 := r.1 } else { ch with cell1 := r.1 }, none)

/-- Embeds `FMChannel.set_waveform` (lines 1005-1011): a `ValueError` when
the cell index is out of bounds, otherwise delegate to the cell (any
waveform number is accepted there; unknown ones play silence). -/
def fmSetWaveform (ops : WaveOps) (S blocksize : ℕ) (idx : ℤ) (w : ℕ)
    (ch : FMChannelState) : FMChannelState × Option String :=
  if idx < 0 ∨ (CELL_COUNT : ℤ) - 1 < idx then
    (ch, some "Cell index is out of bounds!")
  else
    (if idx = 0 then { ch with cell0 := cellSetWaveform ops S blocksize w ch.cell0 }
      else { ch with cell1 := cellSetWaveform ops S blocksize w ch.cell1 }, none)

/-- Embeds `FMChannel.get` (lines 1055-1062) together with the modulator
routing of `Cell.get`: in FM mode the result is the carrier's block, the
carrier pulling the modulator cell first (unless the carrier has no wave
generator, in which case nothing else is pulled, as in `Cell.get`); with
FM off the result is the elementwise mean of the two cells' independent
blocks. -/
def fmGet (ops : WaveOps) (S blocksize : ℕ) (ch : FMChannelState) :
    List ℚ × FMChannelState :=
  if ch.fm_mode then
    match ch.cell0.wave_gen with
    | none => (List.replicate blocksize 0, ch)
    | some _ =>
      let m := cellGet ops S blocksize none ch.cell1
      let w := cellGet ops S blocksize (some m.1) ch.cell0
      (w.1, { ch with cell0 := w.2, cell1 := m.2 })
  else
    let w0 := cellGet ops S blocksize none ch.cell0
    let w1 := cellGet ops S blocksize none ch.cell1
    (List.zipWith (fun a b => (a + b) / 2) w0.1 w1.1,
      { ch with cell0 := w0.2, cell1 := w1.2 })

/-! ## Claim C9: synchronous errors of set_envelope and set_waveform -/

/-- Claim C9: `FMChannel.set_envelope(idx, p)` raises a `ValueError`
exactly when the cell index is outside `[0, CELL_COUNT - 1]` or `p` is not
an `EnvelopeParameters` instance, and `set_waveform(idx, w)` exactly when
the index is out of bounds; on such a failure the channel state (cells,
envelope parameters, waveforms, oscillator tables) is unchanged, because
both checks run before any mutation. -/
theorem C9_set_envelope_waveform_errors (ops : WaveOps) (S B : ℕ)
    (ch : FMChannelState) (idx : ℤ) (a : EnvArg) (w : ℕ) :
    ((fmSetEnvelope idx a ch).2 ≠ none ↔ (idx < 0 ∨ 1 < idx ∨ a = .notParams)) ∧
    ((fmSetEnvelope idx a ch).2 ≠ none → (fmSetEnvelope idx a ch).1 = ch) ∧
    ((fmSetWaveform ops S B idx w ch).2 ≠ none ↔ (idx < 0 ∨ 1 < idx)) ∧
    ((fmSetWaveform ops S B idx w ch).2 ≠ none →
      (fmSetWaveform ops S B idx w ch).1 = ch) := by
  have hcond : (idx < 0 ∨ (CELL_COUNT : ℤ) - 1 < idx) ↔ (idx < 0 ∨ 1 < idx) := by
    norm_num [CELL_COUNT]
  unfold fmSetEnvelope fmSetWaveform
  by_cases hb : idx < 0 ∨ 1 < idx
  · rw [if_pos (hcond.mpr hb), if_pos (hcond.mpr hb)]
    refine ⟨?_, fun _ => rfl, ?_, fun _ => rfl⟩
    · simp only [ne_eq, reduceCtorEq, not_false_iff, true_iff]
      rcases hb with h | h
      · exact Or.inl h
      · exact Or.inr (Or.inl h)
    · simp only [ne_eq, reduceCtorEq, not_false_iff, true_iff]
      exact hb
  · rw [if_neg (fun hc => hb (hcond.mp hc)), if_neg (fun hc => hb (hcond.mp hc))]
    push_neg at hb
    cases a with
    | notParams =>
      refine ⟨?_, fun _ => rfl, ?_, ?_⟩
      · simp [cellSetEnvelope]
      · simp
        omega
      · simp
    | params q =>
      refine ⟨?_, ?_, ?_, ?_⟩
      · simp only [cellSetEnvelope, ne_eq]
        constructor
        · intro hcontra
          exact absurd trivial hcontra
        · rintro (h | h | h)
          · omega
          · omega
          · exact EnvArg.noConfusion h
      · intro hcontra
        simp [cellSetEnvelope] at hcontra
      · simp
        omega
      · simp

/-- A sample parameter record for witnesses. -/
def sampleParams : EnvelopeParameters := ⟨1/20, 1/10, 9/10, 1/4, true⟩

/-- A sample cell for witnesses: sine waveform, 440 Hz, no modulator, no
wave table built yet. -/
def sampleCell : CellState :=
  ⟨some WAVE_SINE, some 440, 1, false, none, sampleParams, emptyCaches,
    ⟨.init, 0, false, true, 0⟩⟩

/-- A sample channel for witnesses. -/
def sampleChannel : FMChannelState := ⟨sampleCell, sampleCell, true⟩

/-- Sample waveform functions standing in for np.sin and friends. -/
def idOps : WaveOps := ⟨id, id, id, 710/113⟩

theorem C9_set_envelope_waveform_errors_witness :
    (fmSetEnvelope 5 (.params sampleParams) sampleChannel).1 = sampleChannel ∧
    (fmSetEnvelope 5 (.params sampleParams) sampleChannel).2 ≠ none := by
  have h := C9_set_envelope_waveform_errors idOps 44100 441 sampleChannel 5
    (.params sampleParams) 2
  have herr : (fmSetEnvelope 5 (.params sampleParams) sampleChannel).2 ≠ none :=
    h.1.mpr (by norm_num)
  exact ⟨h.2.1 herr, herr⟩

/-! ## Claim C5: FM and mixing topology of FMChannel.get -/

/-- Claim C5: in every state, (i) with FM on the channel block is exactly
the carrier's block, the carrier being fed the modulator cell's pulled
block; (ii) with FM on and a wave table present, that block is
`waveform_fn(oscillator block + midx * cells[1] block) * envelope block`
elementwise; (iii) with FM off the block is the elementwise arithmetic
mean of the two cells' independent blocks, so `cells[1]` enters only
through that sum; (iv) when the carrier has a modulator attached, the
stored oscillator table built by `_update_wavegen` is the raw phase ramp
`linspace 0 2π ⌊S/f⌋` (looped to the block size), not the shaped wave. -/
theorem C5_fm_channel_output (ops : WaveOps) (S B : ℕ) (ch : FMChannelState) :
    (ch.fm_mode = true →
      (fmGet ops S B ch).1 =
        (cellGet ops S B (some (cellGet ops S B none ch.cell1).1) ch.cell0).1) ∧
    (∀ wg, ch.fm_mode = true → ch.cell0.wave_gen = some wg →
      (fmGet ops S B ch).1 =
        List.zipWith (· * ·)
          (generateWave ops ch.cell0.waveform
            (List.zipWith (fun a b => a + ch.cell0.midx * b) (loopGet B wg).1
              (cellGet ops S B none ch.cell1).1))
          (seqGet S B ch.cell0.envp ch.cell0.caches ch.cell0.env).1) ∧
    (ch.fm_mode = false →
      (fmGet ops S B ch).1 =
        List.zipWith (fun a b => (a + b) / 2) (cellGet ops S B none ch.cell0).1
          (cellGet ops S B none ch.cell1).1) ∧
    (∀ f, ch.cell0.has_modulator = true → ch.cell0.frequency = some f →
      (updateWavegen ops S B ch.cell0).wave_gen =
        some (mkLoopSeq (linspace 0 ops.twoPi (((S : ℚ) / f).floor.toNat)) B)) := by
  refine ⟨?_, ?_, ?_, ?_⟩
  · intro hfm
    cases hwg : ch.cell0.wave_gen with
    | none => simp [fmGet, cellGet, hfm, hwg]
    | some wg => simp [fmGet, cellGet, hfm, hwg]
  · intro wg hfm hwg
    simp [fmGet, cellGet, hfm, hwg]
  · intro hfm
    simp [fmGet, hfm]
  · intro f hmod hfreq
    simp [updateWavegen, hmod, hfreq]

theorem C5_fm_channel_output_witness :
    (fmGet idOps 44100 441 sampleChannel).1 =
      (cellGet idOps 44100 441 (some (cellGet idOps 44100 441 none
        sampleChannel.cell1).1) sampleChannel.cell0).1 :=
  (C5_fm_channel_output idOps 44100 441 sampleChannel).1 rfl

/-! ## Claim C6: every source emits exactly B samples

The reachable-state invariants: a loop sequencer always holds at least one
full block of samples (established by the constructor for nonempty input —
for empty input the constructor loop never terminates) with its index in
range; a cell's wave generator, when present, satisfies that invariant. -/

/-- Invariant of `FixedWaveLoopSequencer`: nonempty sample store of at
least one block, read index in range. -/
def LoopInv (blocksize : ℕ) (st : LoopSeqState) : Prop :=
  0 < st.samples.length ∧ blocksize ≤ st.samples.length ∧
    st.idx ≤ st.samples.length

/-- Invariant of a `Cell`: its wave generator, when built, satisfies the
loop sequencer invariant. -/
def CellInv (blocksize : ℕ) (c : CellState) : Prop :=
  ∀ wg, c.wave_gen = some wg → LoopInv blocksize wg

theorem repeatToLen_length_ge (orig : List ℚ) (B : ℕ) :
    ∀ fuel cur, cur.length ≤ (repeatToLen orig B fuel cur).length := by
  intro fuel
  induction fuel with
  | zero => intro cur; exact le_rfl
  | succ n ih =>
    intro cur
    simp only [repeatToLen]
    split_ifs with h
    · calc cur.length ≤ (cur ++ orig).length := by simp
        _ ≤ _ := ih (cur ++ orig)
    · exact le_rfl

theorem repeatToLen_length_min (orig : List ℚ) (B : ℕ) (ho : orig ≠ []) :
    ∀ fuel cur, min B (cur.length + fuel) ≤ (repeatToLen orig B fuel cur).length := by
  have horig : 1 ≤ orig.length := by
    cases orig with
    | nil => exact absurd rfl ho
    | cons x t => simp
  intro fuel
  induction fuel with
  | zero =>
    intro cur
    simp only [repeatToLen]
    omega
  | succ n ih =>
    intro cur
    simp only [repeatToLen]
    split_ifs with h
    · have := ih (cur ++ orig)
      rw [List.length_append] at this
      omega
    · omega

theorem mkLoopSeq_inv (samples : List ℚ) (B : ℕ) (h : samples ≠ []) :
    LoopInv B (mkLoopSeq samples B) := by
  unfold mkLoopSeq LoopInv
  dsimp only
  have h1 := repeatToLen_length_ge samples B B samples
  have h2 := repeatToLen_length_min samples B h B samples
  have h3 : 1 ≤ samples.length := by
    cases samples with
    | nil => exact absurd rfl h
    | cons x t => simp
  exact ⟨by omega, by omega, by omega⟩

theorem loopGet_spec (B : ℕ) (st : LoopSeqState) (h : LoopInv B st) :
    (loopGet B st).1.length = B ∧ LoopInv B (loopGet B st).2 := by
  obtain ⟨h0, hB, hidx⟩ := h
  unfold loopGet LoopInv
  dsimp only
  set e := min (st.idx + B) st.samples.length with he
  have hwl : ((st.samples.drop st.idx).take (e - st.idx)).length = e - st.idx := by
    rw [List.length_take, List.length_drop]
    omega
  split_ifs with hr
  · rw [hwl] at hr
    refine ⟨?_, h0, hB, ?_⟩
    · rw [List.length_append, hwl, List.length_take]
      omega
    · dsimp only
      rw [hwl]
      omega
  · rw [hwl] at hr
    refine ⟨?_, h0, hB, ?_⟩
    · rw [hwl]
      omega
    · dsimp only
      omega

theorem envCalcFragment_length (vs ve : ℚ) (num : ℕ) (istart : ℤ) (iend : ℕ)
    (h : ¬(istart = (iend : ℤ) ∨ num = 0)) :
    (envCalcFragment vs ve num istart iend).length = ((iend : ℤ) - istart).toNat := by
  unfold envCalcFragment
  rw [if_neg h]
  dsimp only
  rw [linspace_length]

theorem envAppendFragment_spec (wave cache : List ℚ) (num idx : ℕ) (vs ve : ℚ)
    (B : ℕ) (hw : wave.length ≤ B) :
    (envAppendFragment wave cache num idx vs ve B).1.length ≤ B ∧
    wave.length ≤ (envAppendFragment wave cache num idx vs ve B).1.length ∧
    ((envAppendFragment wave cache num idx vs ve B).1.length = B ∨
      (envAppendFragment wave cache num idx vs ve B).2.2 = num) := by
  unfold envAppendFragment
  dsimp only
  set e := min (idx + (B - wave.length)) num with he
  set c2 := (if cache.length < e then
      cache ++ envCalcFragment vs ve num ((cache.length : ℤ) - 1) e
    else cache) with hc2
  have hclen : e ≤ c2.length := by
    rw [hc2]
    split_ifs with h
    · rw [List.length_append,
        envCalcFragment_length vs ve num ((cache.length : ℤ) - 1) e (by push_neg; omega)]
      omega
    · omega
  have hfrag : ((c2.drop idx).take (e - idx)).length = e - idx := by
    rw [List.length_take, List.length_drop]
    omega
  refine ⟨?_, ?_, ?_⟩
  · rw [List.length_append, hfrag]
    omega
  · rw [List.length_append]
    omega
  · by_cases hc : e = num
    · exact Or.inr hc
    · left
      rw [List.length_append, hfrag]
      omega

theorem genAttack_len (S B : ℕ) (p : EnvelopeParameters) (g : GenAcc)
    (hw : g.1.length ≤ B) :
    (genAttack S B p g).1.length ≤ B ∧
    g.1.length ≤ (genAttack S B p g).1.length ∧
    ((genAttack S B p g).1.length = B ∨ (genAttack S B p g).2.2.phase ≠ .attack) ∧
    ((genAttack S B p g).2.2.phase = g.2.2.phase ∨
      (genAttack S B p g).2.2.phase = .decay) := by
  unfold genAttack
  split_ifs with hph
  · obtain ⟨h1, h2, h3⟩ :=
      envAppendFragment_spec g.1 g.2.1.cache_attack (nAttack S p) g.2.2.idx 0 1 B hw
    dsimp only
    refine ⟨h1, h2, ?_, ?_⟩
    · rcases h3 with h | h
      · exact Or.inl h
      · right
        rw [if_pos h]
        simp
    · by_cases ht :
        (envAppendFragment g.1 g.2.1.cache_attack (nAttack S p) g.2.2.idx 0 1 B).2.2 =
          nAttack S p
      · right
        rw [if_pos ht]
      · left
        rw [if_neg ht]
  · exact ⟨hw, le_rfl, Or.inr hph, Or.inl rfl⟩

theorem genDecay_len (S B : ℕ) (p : EnvelopeParameters) (g : GenAcc)
    (hw : g.1.length ≤ B) :
    (genDecay S B p g).1.length ≤ B ∧
    g.1.length ≤ (genDecay S B p g).1.length ∧
    ((genDecay S B p g).1.length = B ∨ (genDecay S B p g).2.2.phase ≠ .decay) ∧
    ((genDecay S B p g).2.2.phase = g.2.2.phase ∨
      (genDecay S B p g).2.2.phase = .sustain ∨
      (genDecay S B p g).2.2.phase = .releasing) := by
  unfold genDecay
  by_cases hph : g.2.2.phase = .decay
  case neg => rw [if_neg hph]; exact ⟨hw, le_rfl, Or.inr hph, Or.inl rfl⟩
  rw [if_pos hph]
  · obtain ⟨h1, h2, h3⟩ :=
      envAppendFragment_spec g.1 g.2.1.cache_decay (nDecay S p) g.2.2.idx 1 p.sustain B hw
    dsimp only
    refine ⟨h1, h2, ?_, ?_⟩
    · rcases h3 with h | h
      · exact Or.inl h
      · right
        rw [if_pos h]
        by_cases hh : p.hold <;> simp [hh]
    · by_cases ht :
        (envAppendFragment g.1 g.2.1.cache_decay (nDecay S p) g.2.2.idx 1 p.sustain B).2.2 =
          nDecay S p
      · right
        rw [if_pos ht]
        by_cases hh : p.hold <;> simp [hh]
      · left
        rw [if_neg ht]

theorem genSustain_len (B : ℕ) (p : EnvelopeParameters) (g : GenAcc)
    (hw : g.1.length ≤ B) :
    (genSustain B p g).1.length ≤ B ∧
    g.1.length ≤ (genSustain B p g).1.length ∧
    ((genSustain B p g).1.length = B ∨ (genSustain B p g).2.2.phase ≠ .sustain) ∧
    ((genSustain B p g).2.2.phase = g.2.2.phase ∨
      (genSustain B p g).2.2.phase = .releasing) := by
  unfold genSustain
  by_cases hph : g.2.2.phase = .sustain
  case neg => rw [if_neg hph]; exact ⟨hw, le_rfl, Or.inr hph, Or.inl rfl⟩
  rw [if_pos hph]
  · dsimp only
    have hlen : (g.1 ++ linspace g.2.2.amp p.sustain (B - g.1.length)).length = B := by
      rw [List.length_append, linspace_length]
      omega
    refine ⟨le_of_eq hlen, ?_, Or.inl hlen, ?_⟩
    · rw [List.length_append]
      omega
    · by_cases hr : g.2.2.released = true
      · right
        rw [if_pos hr]
      · left
        rw [if_neg hr]

theorem genRelease_len (S B : ℕ) (p : EnvelopeParameters) (g : GenAcc)
    (hw : g.1.length ≤ B) :
    (genRelease S B p g).1.length ≤ B ∧
    g.1.length ≤ (genRelease S B p g).1.length ∧
    ((genRelease S B p g).1.length = B ∨ (genRelease S B p g).2.2.phase ≠ .releasing) ∧
    ((genRelease S B p g).2.2.phase = g.2.2.phase ∨
      (genRelease S B p g).2.2.phase = .tunedown) := by
  unfold genRelease
  split_ifs with hph
  · obtain ⟨h1, h2, h3⟩ :=
      envAppendFragment_spec g.1 g.2.1.cache_release (nRelease S p) g.2.2.idx p.sustain 0 B hw
    dsimp only
    refine ⟨h1, h2, ?_, ?_⟩
    · rcases h3 with h | h
      · exact Or.inl h
      · right
        rw [if_pos h]
        simp
    · by_cases ht :
        (envAppendFragment g.1 g.2.1.cache_release (nRelease S p) g.2.2.idx p.sustain 0 B).2.2 =
          nRelease S p
      · right
        rw [if_pos ht]
      · left
        rw [if_neg ht]
  · exact ⟨hw, le_rfl, Or.inr hph, Or.inl rfl⟩

/-- For a positive sample rate, the amplitude left after the uncapped
tunedown ramp is never positive: the ceiling overshoots the exact number
of samples needed. -/
theorem tunedown_a2_nonpos (lps amp : ℚ) (hl : 0 < lps) :
    amp - lps * ((⌈amp / lps⌉.toNat : ℕ) : ℚ) ≤ 0 := by
  rcases le_or_lt amp 0 with h | h
  · have hdiv : amp / lps ≤ 0 := div_nonpos_of_nonpos_of_nonneg h hl.le
    have hceil : ⌈amp / lps⌉ ≤ 0 := by
      rw [Int.ceil_le]
      exact_mod_cast hdiv
    rw [Int.toNat_eq_zero.mpr hceil]
    simpa using h
  · have h2 : (0 : ℤ) ≤ ⌈amp / lps⌉ := le_of_lt (Int.ceil_pos.mpr (div_pos h hl))
    have h3 : ((⌈amp / lps⌉.toNat : ℕ) : ℚ) = ((⌈amp / lps⌉ : ℤ) : ℚ) := by
      exact_mod_cast Int.toNat_of_nonneg h2
    rw [h3]
    have h4 : amp / lps ≤ ((⌈amp / lps⌉ : ℤ) : ℚ) := Int.le_ceil _
    have h5 : lps * (amp / lps) ≤ lps * ((⌈amp / lps⌉ : ℤ) : ℚ) :=
      mul_le_mul_of_nonneg_left h4 hl.le
    rw [mul_div_cancel₀ amp (ne_of_gt hl)] at h5
    linarith

theorem genTunedown_len (S B : ℕ) (hS : 0 < S) (g : GenAcc)
    (hw : g.1.length ≤ B) :
    (genTunedown S B g).1.length ≤ B ∧
    g.1.length ≤ (genTunedown S B g).1.length ∧
    ((genTunedown S B g).1.length = B ∨ (genTunedown S B g).2.2.phase ≠ .tunedown) ∧
    ((genTunedown S B g).2.2.phase = g.2.2.phase ∨
      (genTunedown S B g).2.2.phase = .done) := by
  have hlps : (0 : ℚ) < 1 / 7 / ((S : ℚ) / 1000) := by
    have hs : (0 : ℚ) < (S : ℚ) := by exact_mod_cast hS
    positivity
  unfold genTunedown
  by_cases hph : g.2.2.phase = .tunedown
  case neg => rw [if_neg hph]; exact ⟨hw, le_rfl, Or.inr hph, Or.inl rfl⟩
  rw [if_pos hph]
  dsimp only
  by_cases hcap : B - g.1.length < (⌈g.2.2.amp / (1 / 7 / ((S : ℚ) / 1000))⌉).toNat
  · rw [if_pos hcap]
    refine ⟨?_, ?_, Or.inl ?_, ?_⟩
    · simp only [List.length_append, linspace_length]
      omega
    · simp only [List.length_append]
      omega
    · simp only [List.length_append, linspace_length]
      omega
    · by_cases hz : (if g.2.2.amp - 1 / 7 / ((S : ℚ) / 1000) * ((B - g.1.length : ℕ) : ℚ) < 0
          then 0
          else g.2.2.amp - 1 / 7 / ((S : ℚ) / 1000) * ((B - g.1.length : ℕ) : ℚ)) = 0
      · right
        rw [if_pos hz]
      · left
        rw [if_neg hz]
  · rw [if_neg hcap]
    have ha2 : (if g.2.2.amp - 1 / 7 / ((S : ℚ) / 1000) *
          (((⌈g.2.2.amp / (1 / 7 / ((S : ℚ) / 1000))⌉).toNat : ℕ) : ℚ) < 0
        then 0
        else g.2.2.amp - 1 / 7 / ((S : ℚ) / 1000) *
          (((⌈g.2.2.amp / (1 / 7 / ((S : ℚ) / 1000))⌉).toNat : ℕ) : ℚ)) = 0 := by
      have hle := tunedown_a2_nonpos (1 / 7 / ((S : ℚ) / 1000)) g.2.2.amp hlps
      split_ifs with hneg
      · rfl
      · exact le_antisymm hle (not_lt.mp hneg)
    rw [ha2]
    refine ⟨?_, ?_, Or.inr ?_, Or.inr ?_⟩
    · simp only [List.length_append, linspace_length]
      omega
    · simp only [List.length_append]
      omega
    · rw [if_pos rfl]
      simp
    · rw [if_pos rfl]

set_option maxHeartbeats 1600000 in
theorem generate_length (S : ℕ) (hS : 0 < S) (p : EnvelopeParameters)
    (c : EnvelopeCaches) (st : EnvelopeState) (B : ℕ) :
    (generate S p c st B).1.length = B := by
  unfold generate
  dsimp only
  obtain ⟨a1, a2, a3, a4⟩ := genAttack_len S B p (([] : List ℚ), c, st) (by simp)
  set g1 := genAttack S B p (([] : List ℚ), c, st) with hg1
  obtain ⟨b1, b2, b3, b4⟩ := genDecay_len S B p g1 a1
  set g2 := genDecay S B p g1 with hg2
  obtain ⟨c1, c2, c3, c4⟩ := genSustain_len B p g2 b1
  set g3 := genSustain B p g2 with hg3
  obtain ⟨d1, d2, d3, d4⟩ := genRelease_len S B p g3 c1
  set g4 := genRelease S B p g3 with hg4
  obtain ⟨e1, e2, e3, e4⟩ := genTunedown_len S B hS g4 d1
  set g5 := genTunedown S B g4 with hg5
  show (genInitDone B g5).1.length = B
  by_cases hid : g5.2.2.phase = .init ∨ g5.2.2.phase = .done
  · unfold genInitDone
    rw [if_pos hid]
    dsimp only
    rw [List.length_append, List.length_replicate]
    omega
  · rw [genInitDone_skip _ _ hid]
    push_neg at hid
    have hlen : g5.1.length = B := by
      rcases e3 with h | h5t
      · exact h
      rcases e4 with h45 | h45
      swap
      · exact absurd h45 hid.2
      rcases d3 with h | h4r
      · omega
      rcases d4 with h34 | h34
      swap
      · exact absurd (h45.trans h34) h5t
      rcases c3 with h | h3s
      · omega
      rcases c4 with h23 | h23
      swap
      · exact absurd (h34.trans h23) h4r
      rcases b3 with h | h2d
      · omega
      rcases b4 with h12 | h12 | h12
      rotate_left
      · exact absurd (h23.trans h12) h3s
      · exact absurd ((h34.trans h23).trans h12) h4r
      rcases a3 with h | h1a
      · omega
      rcases a4 with h01 | h01
      swap
      · exact absurd (h12.trans h01) h2d
      exfalso
      have hp : g5.2.2.phase = st.phase :=
        (((h45.trans h34).trans h23).trans h12).trans h01
      have hpa : st.phase ≠ .attack := fun hc => h1a (h01.trans hc)
      have hpd : st.phase ≠ .decay := fun hc => h2d ((h12.trans h01).trans hc)
      have hps : st.phase ≠ .sustain := fun hc =>
        h3s (((h23.trans h12).trans h01).trans hc)
      have hpr : st.phase ≠ .releasing := fun hc =>
        h4r ((((h34.trans h23).trans h12).trans h01).trans hc)
      have hpt : st.phase ≠ .tunedown := fun hc => h5t (hp.trans hc)
      have hpi : st.phase ≠ .init := fun hc => hid.1 (hp.trans hc)
      have hpo : st.phase ≠ .done := fun hc => hid.2 (hp.trans hc)
      cases hfin : st.phase <;> simp_all
    exact hlen

theorem seqGet_length (S : ℕ) (hS : 0 < S) (p : EnvelopeParameters)
    (c : EnvelopeCaches) (st : EnvelopeState) (B : ℕ) :
    (seqGet S B p c st).1.length = B := by
  unfold seqGet
  dsimp only
  by_cases h1 : (generate S p c st B).2.2.struck = true
  · rw [if_pos h1]
    by_cases h2 : ¬((generate S p c st B).2.2.phase = .init ∨
        (generate S p c st B).2.2.phase = .done)
    · rw [if_pos h2]
      dsimp only
      rw [List.length_append, linspace_length, List.length_replicate]
      have := if_lt_eq_min (S * 7 / 1000) B
      omega
    · rw [if_neg h2]
      dsimp only
      exact generate_length S hS p c st B
  · rw [if_neg h1]
    exact generate_length S hS p c st B

theorem generateWave_length (ops : WaveOps) (w : Option ℕ) (base : List ℚ) :
    (generateWave ops w base).length = base.length := by
  unfold generateWave
  split_ifs <;> simp

theorem cellGet_spec (ops : WaveOps) (S B : ℕ) (hS : 0 < S)
    (modOut : Option (List ℚ)) (c : CellState) (hinv : CellInv B c)
    (hmod : ∀ m, modOut = some m → m.length = B) :
    (cellGet ops S B modOut c).1.length = B ∧
    CellInv B (cellGet ops S B modOut c).2 := by
  unfold cellGet
  cases hwg : c.wave_gen with
  | none =>
    constructor
    · simp
    · intro wg hwg2
      exact hinv wg hwg2
  | some wg =>
    obtain ⟨hl1, hl2⟩ := loopGet_spec B wg (hinv wg hwg)
    dsimp only
    constructor
    · rw [List.length_zipWith, seqGet_length S hS c.envp c.caches c.env B]
      cases hm : modOut with
      | none =>
        dsimp only
        rw [hl1]
        omega
      | some m =>
        dsimp only
        rw [generateWave_length, List.length_zipWith, hl1, hmod m hm]
        omega
    · intro wg2 hwg2
      dsimp only at hwg2
      injection hwg2 with h
      rw [← h]
      exact hl2

theorem fmGet_spec (ops : WaveOps) (S B : ℕ) (hS : 0 < S) (ch : FMChannelState)
    (h0 : CellInv B ch.cell0) (h1 : CellInv B ch.cell1) :
    (fmGet ops S B ch).1.length = B ∧
    CellInv B (fmGet ops S B ch).2.cell0 ∧ CellInv B (fmGet ops S B ch).2.cell1 := by
  unfold fmGet
  split_ifs with hfm
  · cases hwg : ch.cell0.wave_gen with
    | none =>
      refine ⟨by simp, h0, h1⟩
    | some wg =>
      obtain ⟨hm1, hm2⟩ := cellGet_spec ops S B hS none ch.cell1 h1 (by intro m hm; cases hm)
      obtain ⟨hw1, hw2⟩ := cellGet_spec ops S B hS
        (some (cellGet ops S B none ch.cell1).1) ch.cell0 h0
        (by intro m hm; injection hm with h; rw [← h]; exact hm1)
      exact ⟨hw1, hw2, hm2⟩
  · obtain ⟨ha1, ha2⟩ := cellGet_spec ops S B hS none ch.cell0 h0 (by intro m hm; cases hm)
    obtain ⟨hb1, hb2⟩ := cellGet_spec ops S B hS none ch.cell1 h1 (by intro m hm; cases hm)
    refine ⟨?_, ha2, hb2⟩
    rw [List.length_zipWith, ha1, hb1]
    omega

/-- Claim C6: every wave source returns a block of exactly `blocksize`
samples. For the loop sequencer this is proved together with its state
invariant (established by the constructor for nonempty input and preserved
by `get`); the envelope sequencer fills or pads every phase combination;
a cell multiplies two full blocks (or pads with zeros when it has no wave
table); the channel returns the carrier block or an elementwise mean of
two full blocks. The positive sample rate is needed because the tunedown
phase divides by `samplerate / 1000` (at rate 0 the source would raise a
ZeroDivisionError instead of returning a block). -/
theorem C6_block_length (ops : WaveOps) (S B : ℕ) (hS : 0 < S) :
    (∀ samples : List ℚ, samples ≠ [] → LoopInv B (mkLoopSeq samples B)) ∧
    (∀ st : LoopSeqState, LoopInv B st →
      (loopGet B st).1.length = B ∧ LoopInv B (loopGet B st).2) ∧
    (∀ (p : EnvelopeParameters) (c : EnvelopeCaches) (st : EnvelopeState),
      (seqGet S B p c st).1.length = B) ∧
    (∀ (modOut : Option (List ℚ)) (c : CellState), CellInv B c →
      (∀ m, modOut = some m → m.length = B) →
      (cellGet ops S B modOut c).1.length = B ∧
        CellInv B (cellGet ops S B modOut c).2) ∧
    (∀ ch : FMChannelState, CellInv B ch.cell0 → CellInv B ch.cell1 →
      (fmGet ops S B ch).1.length = B ∧
        CellInv B (fmGet ops S B ch).2.cell0 ∧
        CellInv B (fmGet ops S B ch).2.cell1) :=
  ⟨fun samples h => mkLoopSeq_inv samples B h,
   fun st h => loopGet_spec B st h,
   fun p c st => seqGet_length S hS p c st B,
   fun modOut c hinv hmod => cellGet_spec ops S B hS modOut c hinv hmod,
   fun ch h0 h1 => fmGet_spec ops S B hS ch h0 h1⟩

theorem C6_block_length_witness :
    (fmGet idOps 44100 441 sampleChannel).1.length = 441 :=
  ((C6_block_length idOps 44100 441 (by norm_num)).2.2.2.2 sampleChannel
    (by intro wg h; cases h) (by intro wg h; cases h)).1

end AkaiSynth
